import Mathlib

/-!
Verification of the whisper-example repository's core pipeline against its
specification.  The Python source is shallowly embedded: pure routines become
Lean functions over `List ℚ` (audio samples) and `List Char` (text); calls into
external libraries (webrtcvad, sklearn, mlx_whisper, pyannote) are modelled as
oracle parameters; Python exceptions are modelled with `Except Unit` or with
`Option` results where the source catches them.
-/

namespace WhisperExample

/- ------------------------------------------------------------------ -/
/- Bounded pipeline queue (src/src/main.py, `start_transcription`).    -/
/- `asyncio.Queue(maxsize=C)`: `put_nowait` raises `QueueFull` iff the -/
/- maxsize is positive and the queue already holds `C` items;          -/
/- `get_nowait` raises `QueueEmpty` iff the queue is empty.            -/
/- ------------------------------------------------------------------ -/

def put_nowait {α : Type} (C : Nat) (q : List α) (x : α) : Except Unit (List α) :=
  if 0 < C ∧ C ≤ q.length then Except.error () else Except.ok (q ++ [x])

def get_nowait {α : Type} (q : List α) : Except Unit (α × List α) :=
  match q with
  | [] => Except.error ()
  | h :: t => Except.ok (h, t)

/-- The producer-side enqueue of one audio chunk (src/src/main.py lines 99-111):
`put_nowait`; on `QueueFull` drop the oldest entry with `get_nowait` and retry
the put (the retry's `QueueFull`, never reachable, is not caught and would
propagate; on `QueueEmpty` the handler passes and the chunk is dropped). -/
def enqueue_chunk {α : Type} (C : Nat) (q : List α) (x : α) : Except Unit (List α) :=
  match put_nowait C q x with
  | Except.ok q' => Except.ok q'
  | Except.error _ =>
      match get_nowait q with
      | Except.error _ => Except.ok q
      | Except.ok (_, t) => put_nowait C t x

/-- Iterated enqueue of a whole chunk sequence; an uncaught exception aborts. -/
def enqueue_all {α : Type} (C : Nat) (q : List α) : List α → Except Unit (List α)
  | [] => Except.ok q
  | x :: xs =>
      match enqueue_chunk C q x with
      | Except.ok q' => enqueue_all C q' xs
      | Except.error e => Except.error e

/- ------------------------------------------------------------------ -/
/- Voicing gate (src/src/audio.py, `_is_voiced` and `start_recording`).-/
/- The webrtcvad classifier is an oracle on frames: `none` models a    -/
/- per-frame exception (caught and skipped); the int16 conversion of a -/
/- frame is deterministic and folded into the oracle, which is applied -/
/- to exactly the sample windows the source passes to it.             -/
/- ------------------------------------------------------------------ -/

/-- Number of iterations of `range(0, len(audio) - f, f)`. -/
def numVadFrames (f : Nat) (len : Nat) : Nat :=
  if len ≤ f then 0 else (len - 1) / f

/-- The VAD frames: windows `audio[i : i+f]` for `i = 0, f, 2f, ...`,
`i < len(audio) - f`.  Each such window has full length `f`, so the source's
`len(frame) == frame_size` guard always passes. -/
def vadFrames (f : Nat) (audio : List ℚ) : List (List ℚ) :=
  (List.range (numVadFrames f audio.length)).map
    (fun k => (audio.drop (k * f)).take f)

/-- Frame-ratio part of `_is_voiced` (src/src/audio.py lines 44-63): count
voiced and classifiable frames, skipping frames whose classification raised;
voiced iff the ratio strictly exceeds 0.1, and unvoiced when no frame was
classifiable. -/
def isVoicedFrames (vad : List ℚ → Option Bool) (f : Nat) (audio : List ℚ) : Bool :=
  let outcomes := (vadFrames f audio).map vad
  let voiced := outcomes.countP (fun o => o == some true)
  let total := outcomes.countP (fun o => o.isSome)
  if 0 < total then decide ((voiced : ℚ) / (total : ℚ) > 1 / 10) else false

/-- `_is_voiced` (src/src/audio.py lines 37-67): `segFail = true` models an
exception of the VAD backend covering the whole segment, caught by the outer
handler which returns `True` (assume voiced on error). -/
def is_voiced (segFail : Bool) (vad : List ℚ → Option Bool) (f : Nat)
    (audio : List ℚ) : Bool :=
  if segFail then true else isVoicedFrames vad f audio

/-- `np.max(np.abs(chunk))` over the segment's samples. -/
def peakAbs (audio : List ℚ) : ℚ :=
  audio.foldl (fun m x => max m |x|) 0

/-- The voicing gate of `start_recording` (src/src/audio.py line 94):
`self._is_voiced(chunk_ready) or audio_level > 0.001`. -/
def segmentVoiced (segFail : Bool) (vad : List ℚ → Option Bool) (f : Nat)
    (audio : List ℚ) : Bool :=
  is_voiced segFail vad f audio || decide (peakAbs audio > 1 / 1000)

/- ------------------------------------------------------------------ -/
/- Fallback diarization (src/src/diarization.py).                      -/
/- ------------------------------------------------------------------ -/

/-- `MAX_SPEAKERS` from src/src/config.py. -/
def MAX_SPEAKERS : Nat := 5

/-- A diarization segment dictionary {start, end, duration, speaker}. -/
structure DSeg where
  start : ℚ
  stop : ℚ
  dur : ℚ
  speaker : List Char
deriving DecidableEq, Repr

/-- The dictionary returned by `_fallback_diarization`:
{speakers, segments, num_speakers}. -/
structure DiaResult where
  speakers : List (List Char)
  segments : List DSeg
  num_speakers : Nat
deriving DecidableEq, Repr

/-- `np.diff`: successive differences `l[i+1] - l[i]`. -/
def diffList (l : List ℚ) : List ℚ :=
  List.zipWith (fun a b => b - a) l l.tail

/-- Accumulator loop for `np.argmax`: first index of the maximal value. -/
def argmaxGo : List ℚ → ℚ → Nat → Nat → Nat
  | [], _, bi, _ => bi
  | v :: rest, bv, bi, i =>
      if bv < v then argmaxGo rest v i (i + 1) else argmaxGo rest bv bi (i + 1)

/-- `np.argmax` over a rational list (0 on the empty list). -/
def argmaxIdx : List ℚ → Nat
  | [] => 0
  | x :: xs => argmaxGo xs x 0 1

/-- Python `try/except` on a fallible value: the handler answers an
exception, otherwise the body's continuation runs. -/
def exceptFold {β γ : Type} (d : γ) (g : β → γ) : Except Unit β → γ
  | Except.error _ => d
  | Except.ok b => g b

/-- The elbow computation of `_determine_optimal_clusters` once the inertia
sequence is at hand (src/src/diarization.py lines 382-394). -/
def elbowFromInertias (n mk : Nat) (inertias : List ℚ) : Nat :=
  if 3 ≤ inertias.length then
    let dd := diffList (diffList inertias)
    if 0 < dd.length then min (argmaxIdx dd + 2) mk
    else if 6 ≤ n then 2 else 1
  else if 6 ≤ n then 2 else 1

/-- `_determine_optimal_clusters` (src/src/diarization.py lines 364-398).
`inertia k` is the sklearn `KMeans(n_clusters=k).fit(features).inertia_`
oracle; `Except.error` models an exception inside the `try`, answered by the
`except` branch.  `n` is `len(features)`. -/
def determine_optimal_clusters (inertia : Nat → Except Unit ℚ) (n : Nat)
    (max_clusters : Nat) : Nat :=
  if n < 6 then 1
  else
    let mk := min max_clusters (n / 3)
    if mk < 2 then 1
    else
      exceptFold (if 6 ≤ n then 2 else 1) (elbowFromInertias n mk)
        ((List.range mk).mapM (fun i => inertia (i + 1)))

/-- `_merge_adjacent_segments` inner loop: `cur` is `current_segment`, the
remaining list is iterated; merging extends `cur.stop` and recomputes the
duration, otherwise `cur` is emitted and the next segment becomes current. -/
def mergeLoop (cur : DSeg) : List DSeg → List DSeg
  | [] => [cur]
  | n :: rest =>
      if cur.speaker = n.speaker ∧ |cur.stop - n.start| < 1 / 2 then
        mergeLoop { cur with stop := n.stop, dur := n.stop - cur.start } rest
      else
        cur :: mergeLoop n rest

/-- `_merge_adjacent_segments` (src/src/diarization.py lines 400-420). -/
def merge_adjacent_segments : List DSeg → List DSeg
  | [] => []
  | s :: rest => mergeLoop s rest

/-- The degenerate single-speaker output used by the short-input branch, the
too-few-windows branch and the exception handler of `_fallback_diarization`
(`len` is `len(audio_data)`, `sr` the sample rate). -/
def singleSpeakerResult (len sr : Nat) : DiaResult :=
  { speakers := ["Speaker_A".data]
    segments := [{ start := 0, stop := (len : ℚ) / (sr : ℚ),
                   dur := (len : ℚ) / (sr : ℚ), speaker := "Speaker_A".data }]
    num_speakers := 1 }

/-- Sliding-window step: `segment_length - overlap` with
`segment_length = int(sr * 1.0)` and `overlap = int(segment_length * 0.5)`. -/
def winStep (sr : Nat) : Nat := sr - sr / 2

/-- Number of iterations of
`range(0, len(audio_data) - segment_length, segment_length - overlap)`. -/
def numWindows (sr len : Nat) : Nat :=
  if len ≤ sr then 0 else ((len - sr) + winStep sr - 1) / winStep sr

/-- The analysis windows' start sample indices. -/
def windowStarts (sr len : Nat) : List Nat :=
  (List.range (numWindows sr len)).map (fun k => k * winStep sr)

/-- Mean of squared samples.  The source's gate `rms_energy < 0.001` with
`rms_energy = sqrt(mean(segment**2))` is equivalent to
`mean(segment**2) < 0.001^2`, which keeps the embedding rational. -/
def meanSq (w : List ℚ) : ℚ :=
  (w.map (fun x => x * x)).sum / (w.length : ℚ)

/-- A window is discarded by the energy gate iff `rms_energy < 0.001`. -/
def energyLow (w : List ℚ) : Bool :=
  decide (meanSq w < 1 / 1000000)

/-- The windows surviving the energy gate and feature extraction, paired with
their start index.  `extract` is the `_extract_voice_features` oracle: that
routine catches all its own exceptions and returns `None` on any failure, so
it is total into `Option`. -/
def survivors (extract : List ℚ → Option (List ℚ)) (sr : Nat)
    (audio : List ℚ) : List (Nat × List ℚ) :=
  (windowStarts sr audio.length).filterMap
    (fun i =>
      let w := (audio.drop i).take sr
      if energyLow w then none
      else (extract w).map (fun φ => (i, φ)))

/-- Synthetic speaker label `"Speaker_" + chr(65 + k)`. -/
def speakerName (k : Nat) : List Char :=
  "Speaker_".data ++ [Char.ofNat (65 + k)]

/-- The per-window segment dictionaries built from `zip(segment_times,
speaker_labels)` (src/src/diarization.py lines 253-259). -/
def buildSegments (sr : Nat) (surv : List (Nat × List ℚ))
    (labels : List Nat) : List DSeg :=
  ((surv.map Prod.fst).zip labels).map
    (fun p =>
      { start := (p.1 : ℚ) / (sr : ℚ)
        stop := ((p.1 + sr : Nat) : ℚ) / (sr : ℚ)
        dur := ((p.1 + sr : Nat) : ℚ) / (sr : ℚ) - (p.1 : ℚ) / (sr : ℚ)
        speaker := speakerName p.2 })

/-- The body of `_fallback_diarization`'s `try` block (src/src/diarization.py
lines 162-271).  Oracles: `extract` for `_extract_voice_features`;
`normalize` for `np.nan_to_num` + `StandardScaler().fit_transform` (its
exceptions escape to the outer handler); `inertia k fs` for a
`KMeans(n_clusters=k).fit(fs).inertia_` run inside
`_determine_optimal_clusters`; `cluster k fs` for
`KMeans(n_clusters=k).fit_predict(fs)` (its exceptions escape too). -/
def fallback_body (extract : List ℚ → Option (List ℚ))
    (normalize : List (List ℚ) → Except Unit (List (List ℚ)))
    (inertia : Nat → List (List ℚ) → Except Unit ℚ)
    (cluster : Nat → List (List ℚ) → Except Unit (List Nat))
    (audio : List ℚ) (sr : Nat) : Except Unit DiaResult :=
  if audio.length < sr then Except.ok (singleSpeakerResult audio.length sr)
  else
    let surv := survivors extract sr audio
    if surv.length < 3 then Except.ok (singleSpeakerResult audio.length sr)
    else
      match normalize (surv.map Prod.snd) with
      | Except.error e => Except.error e
      | Except.ok normd =>
          let k := determine_optimal_clusters (fun j => inertia j normd)
                     surv.length (min MAX_SPEAKERS (surv.length / 2))
          match cluster k normd with
          | Except.error e => Except.error e
          | Except.ok labels =>
              Except.ok
                { speakers := (List.range k).map speakerName
                  segments := merge_adjacent_segments
                                (buildSegments sr surv labels)
                  num_speakers := k }

/-- `_fallback_diarization` (src/src/diarization.py lines 160-287): the body
wrapped in the `try/except` that collapses any exception to the degenerate
single-speaker result. -/
def fallback_diarization (extract : List ℚ → Option (List ℚ))
    (normalize : List (List ℚ) → Except Unit (List (List ℚ)))
    (inertia : Nat → List (List ℚ) → Except Unit ℚ)
    (cluster : Nat → List (List ℚ) → Except Unit (List Nat))
    (audio : List ℚ) (sr : Nat) : DiaResult :=
  match fallback_body extract normalize inertia cluster audio sr with
  | Except.ok r => r
  | Except.error _ => singleSpeakerResult audio.length sr

/- ------------------------------------------------------------------ -/
/- Segment-speaker aligner                                             -/
/- (src/src/diarization.py, `assign_speakers_to_transcription`).       -/
/- ------------------------------------------------------------------ -/

/-- A transcription segment {start, end, text, speaker}. -/
structure TSeg where
  start : ℚ
  stop : ℚ
  text : List Char
  speaker : List Char
deriving DecidableEq, Repr

/-- `max(0, min(trans_end, dia_end) - max(trans_start, dia_start))`. -/
def overlapDur (s : TSeg) (t : DSeg) : ℚ :=
  max 0 (min s.stop t.stop - max s.start t.start)

/-- One iteration of the best-speaker scan: the pair is
(`best_speaker`, `max_overlap`), updated only on strictly larger overlap. -/
def bestStep (s : TSeg) : List Char × ℚ → DSeg → List Char × ℚ :=
  fun acc t => if acc.2 < overlapDur s t then (t.speaker, overlapDur s t) else acc

/-- The `best_speaker` selected for one transcription segment
(src/src/diarization.py lines 446-460). -/
def bestSpeaker (s : TSeg) (turns : List DSeg) : List Char :=
  (turns.foldl (bestStep s) ("Unknown".data, 0)).1

/-- `assign_speakers_to_transcription` (src/src/diarization.py lines 422-468):
an empty turn list fails the `diarization_result.get("segments")` truthiness
check and the transcription segments are returned unchanged. -/
def assign_speakers_to_transcription (segs : List TSeg) (turns : List DSeg) :
    List TSeg :=
  if turns.isEmpty then segs
  else segs.map (fun s => { s with speaker := bestSpeaker s turns })

/-- Spec-side maximal overlap of a segment against a turn list (0 for none). -/
def maxOverlap (s : TSeg) (turns : List DSeg) : ℚ :=
  (turns.map (overlapDur s)).foldl max 0

/-- First list element satisfying a predicate. -/
def findFirst (p : DSeg → Bool) : List DSeg → Option DSeg
  | [] => none
  | t :: rest => if p t then some t else findFirst p rest

/-- Speaker of a selected turn, or a default when none was selected. -/
def pickSpeaker (b : List Char) : Option DSeg → List Char
  | some t => t.speaker
  | none => b

/-- Spec-side selection: the first turn attaining the maximal overlap when
that maximum is positive, else "Unknown". -/
def specSpeaker (s : TSeg) (turns : List DSeg) : List Char :=
  if 0 < maxOverlap s turns then
    pickSpeaker "Unknown".data
      (findFirst (fun t => overlapDur s t == maxOverlap s turns) turns)
  else "Unknown".data

/- ------------------------------------------------------------------ -/
/- Transcription post-filter (src/src/transcribe.py, `_transcribe_sync`,
   and src/backend/main.py, `transcribe_audio`).                       -/
/- ------------------------------------------------------------------ -/

/-- Python `str.strip()` on a character list. -/
def trimChars (s : List Char) : List Char :=
  ((s.dropWhile Char.isWhitespace).reverse.dropWhile Char.isWhitespace).reverse

/-- Does `s` start with `p`? -/
def seqStarts : List Char → List Char → Bool
  | [], _ => true
  | _ :: _, [] => false
  | a :: ps, b :: ss => a == b && seqStarts ps ss

/-- Python `p in s` substring containment. -/
def seqContains (p : List Char) : List Char → Bool
  | [] => p.isEmpty
  | b :: rest => seqStarts p (b :: rest) || seqContains p rest

/-- The fixed hallucination phrase list (identical in src/src/transcribe.py
lines 93-104 and src/backend/main.py lines 113-124). -/
def unwanted_phrases : List (List Char) :=
  [ "ご視聴ありがとうございました".data
  , "ご視聴ありがとうございます".data
  , "チャンネル登録お願いします".data
  , "お疲れ様でした".data
  , "ありがとうございました".data
  , "よろしくお願いします".data
  , "以上です".data
  , "Thank you for watching".data
  , "Please subscribe".data
  , "Thanks for watching".data ]

/-- The phrase filter applied to an already-stripped text: blank it when some
phrase occurs in it and the text is at most 5 characters longer than the
phrase (the loop breaks at the first matching phrase; every match blanks, so
this equals an existential check). -/
def isHallucinated (t : List Char) : Bool :=
  unwanted_phrases.any (fun p => seqContains p t && decide (t.length ≤ p.length + 5))

/-- Filtering of the whole-result text (src/src/transcribe.py lines 107-111,
src/backend/main.py lines 127-131). -/
def filterMainText (t : List Char) : List Char :=
  let ft := trimChars t
  if isHallucinated ft then [] else ft

/-- A raw segment as produced by the whisper engines: {start, end, text}. -/
structure RawSeg where
  start : ℚ
  stop : ℚ
  text : List Char
deriving DecidableEq, Repr

/-- A raw transcription result {text, segments, language}. -/
structure RawResult where
  text : List Char
  segments : List RawSeg
  language : List Char
deriving DecidableEq, Repr

/-- The filtered result of `_transcribe_sync`. -/
structure TransResult where
  text : List Char
  segments : List TSeg
  language : List Char
deriving DecidableEq, Repr

/-- The segment filter of `_transcribe_sync` (src/src/transcribe.py lines
114-131): drop a segment whose stripped text matches a hallucination phrase
or is empty; survivors get speaker "Unknown". -/
def filterSegments (segs : List RawSeg) : List TSeg :=
  segs.filterMap (fun s =>
    let st := trimChars s.text
    if isHallucinated st then none
    else if st.isEmpty then none
    else some { start := s.start, stop := s.stop, text := st,
                speaker := "Unknown".data })

/-- `_transcribe_sync` (src/src/transcribe.py lines 82-145): the
`mlx_whisper.transcribe` call is an oracle outcome; an exception yields the
empty result with the configured language. -/
def transcribe_sync (outcome : Except Unit RawResult) (lang : List Char) :
    TransResult :=
  match outcome with
  | Except.error _ => { text := [], segments := [], language := lang }
  | Except.ok r =>
      { text := filterMainText r.text
        segments := filterSegments r.segments
        language := r.language }

/- ------------------------------------------------------------------ -/
/- Backend engine pool and request handler (src/backend/main.py).      -/
/- ------------------------------------------------------------------ -/

/-- The `model_lock` dictionary {"1": bool, "2": bool}. -/
structure Locks where
  l1 : Bool
  l2 : Bool
deriving DecidableEq, Repr

def lockGet (L : Locks) (id : Nat) : Bool :=
  if id = 1 then L.l1 else L.l2

/-- `get_available_model` (src/backend/main.py lines 54-69): first free slot
wins; under full contention slot 1 is taken anyway. -/
def get_available_model (L : Locks) : Nat × Locks :=
  if L.l1 = false then (1, { L with l1 := true })
  else if L.l2 = false then (2, { L with l2 := true })
  else (1, { L with l1 := true })

/-- `release_model` (src/backend/main.py lines 71-73). -/
def release_model (L : Locks) (id : Nat) : Locks :=
  if id = 1 then { L with l1 := false }
  else if id = 2 then { L with l2 := false }
  else L

/-- A diarization turn {start, end, speaker} from the backend pipeline. -/
structure SpTurn where
  start : ℚ
  stop : ℚ
  speaker : List Char
deriving DecidableEq, Repr

/-- The backend's per-segment speaker pick (src/backend/main.py lines
159-169): the first turn containing the segment's start or end instant. -/
def backendPickSpeaker (st en : ℚ) (speakers : List SpTurn) : List Char :=
  match speakers.find?
      (fun t => (t.start ≤ st && st ≤ t.stop) || (t.start ≤ en && en ≤ t.stop)) with
  | some t => t.speaker
  | none => "Unknown".data

/-- The backend's segment post-processing loop (src/backend/main.py lines
146-178): strip, blank hallucinated text, skip empty segments, attach a
speaker. -/
def backendProcessSegments (segs : List RawSeg) (speakers : List SpTurn) :
    List TSeg :=
  segs.filterMap (fun s =>
    let st0 := trimChars s.text
    let st := if isHallucinated st0 then [] else st0
    if st.isEmpty then none
    else some { start := s.start, stop := s.stop, text := st,
                speaker := backendPickSpeaker s.start s.stop speakers })

/-- The `/transcribe` handler `transcribe_audio` (src/backend/main.py lines
75-196), modelled on its lock discipline.  `contentOk` is the content-type
guard; `readOk` covers reading the upload and writing the temp file (both
precede slot acquisition); `tr` is the `whisper_model.transcribe` call plus
segment iteration; `dia` is the diarization run, whose exception is caught
locally leaving `speakers = []`.  On the failure path the inner `finally`
releases the slot and the outer handler releases it again (idempotent)
before raising HTTP 500. -/
def transcribe_audio (L : Locks) (contentOk readOk : Bool)
    (tr : Except Unit RawResult) (dia : Except Unit (List SpTurn)) :
    Except Unit TransResult × Locks :=
  if contentOk = false then (Except.error (), L)
  else if readOk = false then (Except.error (), L)
  else
    let mid := (get_available_model L).1
    let L1 := (get_available_model L).2
    match tr with
    | Except.error _ =>
        (Except.error (), release_model (release_model L1 mid) mid)
    | Except.ok raw =>
        let speakers := match dia with
          | Except.ok s => s
          | Except.error _ => []
        (Except.ok
          { text := filterMainText raw.text
            segments := backendProcessSegments raw.segments speakers
            language := raw.language },
         release_model L1 mid)

/-- A default analysis window of the fallback tiling: 1.0-second windows with
50% overlap place window `i` at `[i/2, i/2 + 1]` seconds. -/
def defaultWindow (i : Nat) (sp : List Char) : DSeg :=
  { start := (i : ℚ) / 2, stop := (i : ℚ) / 2 + 1, dur := 1, speaker := sp }

/- ------------------------------------------------------------------ -/
/- Helper lemmas                                                       -/
/- ------------------------------------------------------------------ -/

theorem find?_ext {α : Type} (p q : α → Bool) :
    ∀ l : List α, (∀ x ∈ l, p x = q x) → l.find? p = l.find? q := by
  intro l
  induction l with
  | nil => intro _; rfl
  | cons a t ih =>
      intro h
      have ha := h a (List.mem_cons_self a t)
      by_cases hp : p a = true
      · rw [List.find?_cons_of_pos _ hp, List.find?_cons_of_pos _ (ha ▸ hp)]
      · rw [List.find?_cons_of_neg _ hp,
          List.find?_cons_of_neg _ (by rw [← ha]; exact hp),
          ih (fun x hx => h x (List.mem_cons_of_mem a hx))]

theorem le_foldl_max (l : List ℚ) : ∀ a : ℚ, a ≤ l.foldl max a := by
  induction l with
  | nil => intro a; simp
  | cons x t ih =>
      intro a
      calc a ≤ max a x := le_max_left a x
        _ ≤ List.foldl max (max a x) t := ih (max a x)
        _ = List.foldl max a (x :: t) := rfl

theorem mem_le_foldl_max (l : List ℚ) :
    ∀ (a x : ℚ), x ∈ l → x ≤ l.foldl max a := by
  induction l with
  | nil => intro a x hx; cases hx
  | cons y t ih =>
      intro a x hx
      rcases List.mem_cons.mp hx with h | h
      · subst h
        calc x ≤ max a x := le_max_right a x
          _ ≤ List.foldl max (max a x) t := le_foldl_max t (max a x)
      · exact ih (max a y) x h

theorem argmaxGo_lt (l : List ℚ) :
    ∀ (bv : ℚ) (bi i : Nat), bi < i → argmaxGo l bv bi i < i + l.length := by
  induction l with
  | nil => intro bv bi i h; simpa [argmaxGo] using h
  | cons v t ih =>
      intro bv bi i h
      simp only [argmaxGo]
      by_cases hv : bv < v
      · simp only [if_pos hv]
        have := ih v i (i + 1) (Nat.lt_succ_self i)
        simpa [Nat.add_comm, Nat.add_assoc, Nat.add_left_comm] using this
      · simp only [if_neg hv]
        have := ih bv bi (i + 1) (Nat.lt_succ_of_lt h)
        simpa [Nat.add_comm, Nat.add_assoc, Nat.add_left_comm] using this

theorem argmaxIdx_lt_length (l : List ℚ) (h : l ≠ []) : argmaxIdx l < l.length := by
  cases l with
  | nil => exact absurd rfl h
  | cons x xs =>
      have := argmaxGo_lt xs x 0 1 Nat.zero_lt_one
      simpa [argmaxIdx, Nat.add_comm] using this

theorem diffList_length (l : List ℚ) : (diffList l).length = l.length - 1 := by
  cases l with
  | nil => rfl
  | cons x xs => simp [diffList, List.length_zipWith]

theorem mapM_loop_ok {β γ : Type} (g : β → γ) :
    ∀ (l : List β) (acc : List γ),
      List.mapM.loop (fun b => (Except.ok (g b) : Except Unit γ)) l acc =
        Except.ok (acc.reverse ++ l.map g) := by
  intro l
  induction l with
  | nil => intro acc; simp [List.mapM.loop]; rfl
  | cons a t ih =>
      intro acc
      simp only [List.mapM.loop, List.map_cons]
      show List.mapM.loop _ t (g a :: acc) = _
      rw [ih (g a :: acc)]
      simp

theorem mapM_ok {β γ : Type} (g : β → γ) (l : List β) :
    l.mapM (fun b => (Except.ok (g b) : Except Unit γ)) = Except.ok (l.map g) := by
  show List.mapM.loop _ l [] = _
  rw [mapM_loop_ok g l []]
  rfl

/- ------------------------------------------------------------------ -/
/- Claim theorems                                                      -/
/- ------------------------------------------------------------------ -/

theorem merge_pair_eq (a b : DSeg) :
    merge_adjacent_segments [a, b] =
      if a.speaker = b.speaker ∧ |a.stop - b.start| < 1 / 2 then
        [{ a with stop := b.stop, dur := b.stop - a.start }]
      else [a, b] := by
  by_cases h : a.speaker = b.speaker ∧ |a.stop - b.start| < 1 / 2
  · simp [merge_adjacent_segments, mergeLoop, h]
  · simp [merge_adjacent_segments, mergeLoop, h]

theorem defaultWindow_gap (i : Nat) (sp : List Char) :
    |(defaultWindow i sp).stop - (defaultWindow (i + 1) sp).start| = 1 / 2 := by
  have hv : (defaultWindow i sp).stop - (defaultWindow (i + 1) sp).start =
      1 / 2 := by
    simp only [defaultWindow]
    push_cast
    ring
  rw [hv, abs_of_pos (by norm_num : (0 : ℚ) < 1 / 2)]

/-- Claim C2, counterexample: the first two windows of the default fallback
tiling (1.0 s windows, 50% overlap) carry the same speaker and have a gap of
`-0.5` s — below the 0.5 s tolerance, and negative as the claim notes — yet
`_merge_adjacent_segments` leaves them unmerged, because the merge condition
`abs(current_end - next_start) < 0.5` evaluates `|1 - 0.5| = 0.5`, which is
not strictly below `0.5`. -/
theorem C2_counterexample :
    merge_adjacent_segments [defaultWindow 0 "Speaker_A".data,
        defaultWindow 1 "Speaker_A".data] =
      [defaultWindow 0 "Speaker_A".data, defaultWindow 1 "Speaker_A".data] ∧
    (defaultWindow 0 "Speaker_A".data).speaker =
      (defaultWindow 1 "Speaker_A".data).speaker ∧
    (defaultWindow 1 "Speaker_A".data).start -
        (defaultWindow 0 "Speaker_A".data).stop < 1 / 2 := by
  refine ⟨?_, rfl, ?_⟩
  · have h : ¬((defaultWindow 0 "Speaker_A".data).speaker =
        (defaultWindow 1 "Speaker_A".data).speaker ∧
        |(defaultWindow 0 "Speaker_A".data).stop -
          (defaultWindow 1 "Speaker_A".data).start| < 1 / 2) := by
      rintro ⟨-, habs⟩
      rw [defaultWindow_gap 0 "Speaker_A".data] at habs
      exact lt_irrefl _ habs
    rw [merge_pair_eq, if_neg h]
  · simp only [defaultWindow]
    push_cast
    norm_num

/-- Claim C2, amended: a pair of adjacent same-speaker windows is merged if
and only if the absolute difference between the earlier window's end and the
later window's start is strictly below 0.5 s; for consecutive windows of the
default tiling (1.0 s length, 50% overlap) that difference is exactly 0.5 s,
so they are never merged. -/
theorem C2_merge_amended :
    (∀ a b : DSeg,
      merge_adjacent_segments [a, b] =
        if a.speaker = b.speaker ∧ |a.stop - b.start| < 1 / 2 then
          [{ a with stop := b.stop, dur := b.stop - a.start }]
        else [a, b]) ∧
    (∀ (i : Nat) (sp : List Char),
      merge_adjacent_segments [defaultWindow i sp, defaultWindow (i + 1) sp] =
        [defaultWindow i sp, defaultWindow (i + 1) sp]) := by
  refine ⟨merge_pair_eq, ?_⟩
  intro i sp
  have h : ¬((defaultWindow i sp).speaker = (defaultWindow (i + 1) sp).speaker ∧
      |(defaultWindow i sp).stop - (defaultWindow (i + 1) sp).start| < 1 / 2) := by
    rintro ⟨-, habs⟩
    rw [defaultWindow_gap i sp] at habs
    exact lt_irrefl _ habs
  rw [merge_pair_eq, if_neg h]

/-- Claim C4: every request through the backend `/transcribe` handler that
reaches slot acquisition (content-type and upload handling succeeded) leaves
its acquired engine slot's busy flag `false` when it returns, whether the
transcription call succeeds or throws. -/
theorem C4_slot_released (L : Locks) (tr : Except Unit RawResult)
    (dia : Except Unit (List SpTurn)) :
    lockGet (transcribe_audio L true true tr dia).2 (get_available_model L).1 =
      false := by
  cases L with
  | mk l1 l2 =>
      cases l1 <;> cases l2 <;> cases tr <;>
        simp [transcribe_audio, get_available_model, release_model, lockGet]

/-- Claim C6: when the VAD backend raises for the whole segment, `_is_voiced`
returns `True` (fail open), the voicing gate therefore passes the segment,
and — the embedding being a total function — no exception escapes the check. -/
theorem C6_vad_fail_open (vad : List ℚ → Option Bool) (f : Nat)
    (audio : List ℚ) :
    is_voiced true vad f audio = true ∧ segmentVoiced true vad f audio = true := by
  constructor
  · rfl
  · simp [segmentVoiced, is_voiced]

/-- Claim C7: whenever fewer than 3 windows survive the energy gate and
feature extraction (in particular for input shorter than one window), the
fallback diarization returns exactly one speaker, "Speaker_A", with a single
turn spanning the whole input from time 0 to `len(audio)/sample_rate`. -/
theorem C7_few_windows (extract : List ℚ → Option (List ℚ))
    (normalize : List (List ℚ) → Except Unit (List (List ℚ)))
    (inertia : Nat → List (List ℚ) → Except Unit ℚ)
    (cluster : Nat → List (List ℚ) → Except Unit (List Nat))
    (audio : List ℚ) (sr : Nat)
    (h : (survivors extract sr audio).length < 3) :
    fallback_diarization extract normalize inertia cluster audio sr =
      { speakers := ["Speaker_A".data]
        segments := [{ start := 0, stop := (audio.length : ℚ) / (sr : ℚ),
                       dur := (audio.length : ℚ) / (sr : ℚ),
                       speaker := "Speaker_A".data }]
        num_speakers := 1 } := by
  unfold fallback_diarization fallback_body
  by_cases hs : audio.length < sr
  · simp [hs, singleSpeakerResult]
  · simp [hs, h, singleSpeakerResult]

/-- Claim C7, witness: a 3-sample input at a 4-sample window length yields no
windows at all, hence the degenerate single-speaker result. -/
theorem C7_few_windows_witness :
    (survivors (fun _ => none) 4 ([1, 1, 1] : List ℚ)).length < 3 ∧
    fallback_diarization (fun _ => none) (fun _ => Except.error ())
        (fun _ _ => Except.error ()) (fun _ _ => Except.error ())
        ([1, 1, 1] : List ℚ) 4 =
      { speakers := ["Speaker_A".data]
        segments := [{ start := 0, stop := ((3 : Nat) : ℚ) / ((4 : Nat) : ℚ),
                       dur := ((3 : Nat) : ℚ) / ((4 : Nat) : ℚ),
                       speaker := "Speaker_A".data }]
        num_speakers := 1 } := by
  refine ⟨by decide, ?_⟩
  exact C7_few_windows (fun _ => none) (fun _ => Except.error ())
    (fun _ _ => Except.error ()) (fun _ _ => Except.error ())
    ([1, 1, 1] : List ℚ) 4 (by decide)

/-- Claim C8: the fallback diarization never propagates an exception — it is
a total function of its oracles and input, and whenever its try-block body
raises (`fallback_body` returns `Except.error`), the result collapses to the
degenerate single-speaker output spanning the whole input. -/
theorem C8_no_exception (extract : List ℚ → Option (List ℚ))
    (normalize : List (List ℚ) → Except Unit (List (List ℚ)))
    (inertia : Nat → List (List ℚ) → Except Unit ℚ)
    (cluster : Nat → List (List ℚ) → Except Unit (List Nat))
    (audio : List ℚ) (sr : Nat)
    (h : fallback_body extract normalize inertia cluster audio sr =
      Except.error ()) :
    fallback_diarization extract normalize inertia cluster audio sr =
      { speakers := ["Speaker_A".data]
        segments := [{ start := 0, stop := (audio.length : ℚ) / (sr : ℚ),
                       dur := (audio.length : ℚ) / (sr : ℚ),
                       speaker := "Speaker_A".data }]
        num_speakers := 1 } := by
  unfold fallback_diarization
  rw [h]
  rfl

theorem energyLow_one : energyLow [(1 : ℚ)] = false := by
  simp only [energyLow, meanSq, List.map_cons, List.map_nil, List.sum_cons,
    List.sum_nil, List.length_cons, List.length_nil, decide_eq_false_iff_not]
  norm_num

theorem c8_witness_survivors :
    survivors (fun _ => some []) 1 ([1, 1, 1, 1] : List ℚ) =
      [(0, []), (1, []), (2, [])] := by
  have hw : windowStarts 1 ([1, 1, 1, 1] : List ℚ).length = [0, 1, 2] := rfl
  simp only [survivors, hw, List.filterMap_cons, List.filterMap_nil]
  norm_num [energyLow_one, Option.map]

theorem c8_witness_body :
    fallback_body (fun _ => some []) (fun _ => Except.error ())
        (fun _ _ => Except.error ()) (fun _ _ => Except.error ())
        ([1, 1, 1, 1] : List ℚ) 1 = Except.error () := by
  simp only [fallback_body, c8_witness_survivors]
  norm_num

/-- Claim C8, witness: four unit samples at sample rate 1 produce three
surviving windows, the scaler oracle then throws, and the result is the
degenerate single-speaker output. -/
theorem C8_no_exception_witness :
    fallback_body (fun _ => some []) (fun _ => Except.error ())
        (fun _ _ => Except.error ()) (fun _ _ => Except.error ())
        ([1, 1, 1, 1] : List ℚ) 1 = Except.error () ∧
    fallback_diarization (fun _ => some []) (fun _ => Except.error ())
        (fun _ _ => Except.error ()) (fun _ _ => Except.error ())
        ([1, 1, 1, 1] : List ℚ) 1 =
      { speakers := ["Speaker_A".data]
        segments := [{ start := 0,
                       stop := ((([1, 1, 1, 1] : List ℚ).length : ℚ) / ((1 : Nat) : ℚ)),
                       dur := ((([1, 1, 1, 1] : List ℚ).length : ℚ) / ((1 : Nat) : ℚ)),
                       speaker := "Speaker_A".data }]
        num_speakers := 1 } := by
  refine ⟨c8_witness_body, ?_⟩
  exact C8_no_exception (fun _ => some []) (fun _ => Except.error ())
    (fun _ _ => Except.error ()) (fun _ _ => Except.error ())
    ([1, 1, 1, 1] : List ℚ) 1 c8_witness_body

theorem enqueue_chunk_ok {α : Type} (C : Nat) (hC : 1 ≤ C) (q : List α)
    (x : α) (hq : q.length ≤ C) :
    enqueue_chunk C q x =
      Except.ok (if C ≤ q.length then q.tail ++ [x] else q ++ [x]) := by
  by_cases hfull : C ≤ q.length
  · cases q with
    | nil =>
        exfalso
        simp only [List.length_nil, Nat.le_zero] at hfull
        omega
    | cons h t =>
        have hCpos : 0 < C := hC
        have hfull' : C ≤ t.length + 1 := by simpa using hfull
        have h2' : ¬C ≤ t.length := by
          simp only [List.length_cons] at hq
          omega
        simp [enqueue_chunk, put_nowait, get_nowait, hCpos, hfull', h2']
  · have h1 : ¬(0 < C ∧ C ≤ q.length) := fun hcon => hfull hcon.2
    simp [enqueue_chunk, put_nowait, h1, hfull]

theorem enqueue_all_ok {α : Type} (C : Nat) (hC : 1 ≤ C) :
    ∀ (xs : List α) (q : List α), q.length ≤ C →
      ∃ q', enqueue_all C q xs = Except.ok q' ∧ q'.length ≤ C := by
  intro xs
  induction xs with
  | nil => intro q hq; exact ⟨q, rfl, hq⟩
  | cons x t ih =>
      intro q hq
      have hstep := enqueue_chunk_ok C hC q x hq
      by_cases hfull : C ≤ q.length
      · rw [if_pos hfull] at hstep
        have hlen : (q.tail ++ [x]).length ≤ C := by
          simp only [List.length_append, List.length_tail, List.length_cons,
            List.length_nil]
          omega
        obtain ⟨q', hq', hle⟩ := ih (q.tail ++ [x]) hlen
        exact ⟨q', by simp [enqueue_all, hstep, hq'], hle⟩
      · rw [if_neg hfull] at hstep
        have hlen : (q ++ [x]).length ≤ C := by
          simp only [List.length_append, List.length_cons, List.length_nil]
          omega
        obtain ⟨q', hq', hle⟩ := ih (q ++ [x]) hlen
        exact ⟨q', by simp [enqueue_all, hstep, hq'], hle⟩

/-- Claim C3: with a positive capacity `C`, any sequence of producer
enqueues keeps the audio queue at or below `C` entries and never blocks or
fails (every enqueue returns `ok`); a single enqueue against a queue holding
at most `C` entries succeeds, keeps the bound, leaves the new chunk present,
and — when the queue is full — drops exactly the head and appends the new
chunk at the tail. -/
theorem C3_queue_bound (α : Type) (C : Nat) (hC : 1 ≤ C) :
    (∀ xs : List α, ∃ q', enqueue_all C [] xs = Except.ok q' ∧ q'.length ≤ C) ∧
    (∀ (q : List α) (x : α), q.length ≤ C →
      ∃ q', enqueue_chunk C q x = Except.ok q' ∧ q'.length ≤ C ∧ x ∈ q' ∧
        (q.length = C → q' = q.tail ++ [x])) := by
  constructor
  · intro xs
    exact enqueue_all_ok C hC xs [] (by simp)
  · intro q x hq
    have hstep := enqueue_chunk_ok C hC q x hq
    by_cases hfull : C ≤ q.length
    · rw [if_pos hfull] at hstep
      refine ⟨q.tail ++ [x], hstep, ?_, ?_, fun _ => rfl⟩
      · simp only [List.length_append, List.length_tail, List.length_cons,
          List.length_nil]
        omega
      · simp
    · rw [if_neg hfull] at hstep
      refine ⟨q ++ [x], hstep, ?_, ?_, fun hlen => absurd hlen.ge hfull⟩
      · simp only [List.length_append, List.length_cons, List.length_nil]
        omega
      · simp

/-- Claim C3, witness: capacity 2 with four enqueues, and one enqueue against
the full queue `[5, 6]`. -/
theorem C3_queue_bound_witness :
    1 ≤ 2 ∧
    ((∀ xs : List Nat, ∃ q', enqueue_all 2 [] xs = Except.ok q' ∧
        q'.length ≤ 2) ∧
    (∀ (q : List Nat) (x : Nat), q.length ≤ 2 →
      ∃ q', enqueue_chunk 2 q x = Except.ok q' ∧ q'.length ≤ 2 ∧ x ∈ q' ∧
        (q.length = 2 → q' = q.tail ++ [x]))) :=
  ⟨by decide, C3_queue_bound Nat 2 (by decide)⟩

/-- Claim C5: on the normal analysis path (no whole-segment VAD exception),
a captured segment is voiced if and only if either the fraction of
classifiable VAD frames labelled speech strictly exceeds 0.1 — frames whose
classification raised are excluded from numerator and denominator, and a
segment with zero classifiable frames fails this criterion — or the
segment's peak absolute amplitude strictly exceeds 0.001. -/
theorem C5_voicing_iff (vad : List ℚ → Option Bool) (f : Nat)
    (audio : List ℚ) :
    segmentVoiced false vad f audio = true ↔
      (0 < ((vadFrames f audio).map vad).countP (fun o => o.isSome) ∧
        ((((vadFrames f audio).map vad).countP (fun o => o == some true) : ℚ) /
          (((vadFrames f audio).map vad).countP (fun o => o.isSome) : ℚ) >
          1 / 10)) ∨
      peakAbs audio > 1 / 1000 := by
  have hvf : is_voiced false vad f audio = isVoicedFrames vad f audio := by
    simp [is_voiced]
  constructor
  · intro h
    rcases Bool.or_eq_true _ _ |>.mp h with h1 | h1
    · rw [hvf] at h1
      unfold isVoicedFrames at h1
      by_cases ht : 0 < ((vadFrames f audio).map vad).countP (fun o => o.isSome)
      · rw [if_pos ht] at h1
        exact Or.inl ⟨ht, of_decide_eq_true h1⟩
      · rw [if_neg ht] at h1
        exact absurd h1 (by simp)
    · exact Or.inr (of_decide_eq_true h1)
  · intro h
    apply Bool.or_eq_true _ _ |>.mpr
    rcases h with ⟨ht, hr⟩ | hp
    · refine Or.inl ?_
      rw [hvf]
      unfold isVoicedFrames
      rw [if_pos ht]
      exact decide_eq_true hr
    · exact Or.inr (decide_eq_true hp)

/-- Claim C9: in the fallback's call `_determine_optimal_clusters(features,
max_clusters=min(MAX_SPEAKERS, n // 2))`, when every k-means inertia run for
`k = 1..max_k` succeeds, the effective `max_k` is `min(MAX_SPEAKERS, n // 3)`
(bounded by both the configured maximum speaker count and a third of the
window count), the chosen K is the first argmax of the second discrete
difference of the inertia sequence plus 2 whenever at least 3 inertia points
exist, and with fewer than 3 inertia points K defaults to 2 when at least 6
windows survive and to 1 otherwise. -/
theorem C9_elbow_heuristic (f : Nat → ℚ) (n : Nat) :
    determine_optimal_clusters (fun k => Except.ok (f k)) n
        (min MAX_SPEAKERS (n / 2)) =
      if n < 6 then 1
      else if min MAX_SPEAKERS (n / 3) < 3 then 2
      else argmaxIdx (diffList (diffList
        ((List.range (min MAX_SPEAKERS (n / 3))).map (fun i => f (i + 1))))) +
          2 := by
  by_cases hn : n < 6
  · simp [determine_optimal_clusters, hn]
  · have h6 : 6 ≤ n := Nat.le_of_not_lt hn
    have hdiv : n / 3 ≤ n / 2 := Nat.div_le_div_left (by norm_num) (by norm_num)
    have hmk : min (min MAX_SPEAKERS (n / 2)) (n / 3) =
        min MAX_SPEAKERS (n / 3) := by
      rw [min_assoc, min_eq_right hdiv]
    set mk := min MAX_SPEAKERS (n / 3) with hmkdef
    have h2 : 2 ≤ mk := by
      have h23 : 2 ≤ n / 3 := by
        have h63 : 6 / 3 ≤ n / 3 := Nat.div_le_div_right h6
        simpa using h63
      have h25 : 2 ≤ MAX_SPEAKERS := by norm_num [MAX_SPEAKERS]
      exact le_min h25 h23
    unfold determine_optimal_clusters
    simp only [if_neg hn]
    simp only [hmk, ← hmkdef]
    rw [if_neg (Nat.not_lt.mpr h2)]
    rw [mapM_ok (fun i => f (i + 1)) (List.range mk)]
    set l := (List.range mk).map (fun i => f (i + 1)) with hl
    have hlen : l.length = mk := by simp [hl]
    rw [show exceptFold (if 6 ≤ n then 2 else 1) (elbowFromInertias n mk)
        (Except.ok l) = elbowFromInertias n mk l from rfl]
    unfold elbowFromInertias
    by_cases h3 : 3 ≤ mk
    · rw [if_pos (by rw [hlen]; exact h3)]
      have hddlen : (diffList (diffList l)).length = mk - 2 := by
        rw [diffList_length, diffList_length, hlen]
        omega
      have hddpos : 0 < (diffList (diffList l)).length := by
        rw [hddlen]; omega
      rw [if_pos hddpos]
      have hne : diffList (diffList l) ≠ [] := by
        intro hcon
        rw [hcon] at hddpos
        exact absurd hddpos (by simp)
      have harg : argmaxIdx (diffList (diffList l)) + 2 ≤ mk := by
        have := argmaxIdx_lt_length (diffList (diffList l)) hne
        rw [hddlen] at this
        omega
      rw [min_eq_left harg, if_neg (Nat.not_lt.mpr h3)]
    · have hmk3 : mk < 3 := Nat.lt_of_not_le h3
      rw [if_neg (by rw [hlen]; exact h3), if_pos h6, if_pos hmk3]

theorem findFirst_ext (p q : DSeg → Bool) :
    ∀ l : List DSeg, (∀ x ∈ l, p x = q x) → findFirst p l = findFirst q l := by
  intro l
  induction l with
  | nil => intro _; rfl
  | cons a t ih =>
      intro h
      have ha := h a (List.mem_cons_self a t)
      simp only [findFirst, ha,
        ih (fun x hx => h x (List.mem_cons_of_mem a hx))]

theorem findFirst_eq_none (p : DSeg → Bool) :
    ∀ l : List DSeg, (∀ x ∈ l, p x = false) → findFirst p l = none := by
  intro l
  induction l with
  | nil => intro _; rfl
  | cons a t ih =>
      intro h
      simp only [findFirst, h a (List.mem_cons_self a t), if_neg Bool.false_ne_true,
        ih (fun x hx => h x (List.mem_cons_of_mem a hx))]

theorem findFirst_isSome (p : DSeg → Bool) :
    ∀ l : List DSeg, (∃ x ∈ l, p x = true) → ∃ y, findFirst p l = some y := by
  intro l
  induction l with
  | nil => rintro ⟨x, hx, -⟩; cases hx
  | cons a t ih =>
      rintro ⟨x, hx, hpx⟩
      by_cases ha : p a = true
      · exact ⟨a, by simp [findFirst, ha]⟩
      · rcases List.mem_cons.mp hx with h | h
        · exact absurd (h ▸ hpx) ha
        · obtain ⟨y, hy⟩ := ih ⟨x, h, hpx⟩
          exact ⟨y, by simp [findFirst, ha, hy]⟩

theorem foldl_max_attained :
    ∀ (l : List ℚ) (a : ℚ), l.foldl max a = a ∨ l.foldl max a ∈ l := by
  intro l
  induction l with
  | nil => intro a; exact Or.inl rfl
  | cons x t ih =>
      intro a
      rcases ih (max a x) with h | h
      · rcases max_choice a x with hm | hm
        · exact Or.inl (by rw [List.foldl_cons, h, hm])
        · exact Or.inr (by rw [List.foldl_cons, h, hm]; exact List.mem_cons_self x t)
      · exact Or.inr (List.mem_cons_of_mem x h)

theorem foldBest_eq (s : TSeg) :
    ∀ (ts : List DSeg) (b : List Char) (m : ℚ),
      (ts.foldl (bestStep s) (b, m)).1 =
        pickSpeaker b (findFirst (fun t => decide (m < overlapDur s t) &&
          (overlapDur s t == (ts.map (overlapDur s)).foldl max m)) ts) := by
  intro ts
  induction ts with
  | nil => intro b m; rfl
  | cons t rest ih =>
      intro b m
      have hfold : List.foldl (bestStep s) (b, m) (t :: rest) =
          List.foldl (bestStep s) (bestStep s (b, m) t) rest := rfl
      have hmap : ((t :: rest).map (overlapDur s)).foldl max m =
          (rest.map (overlapDur s)).foldl max (max m (overlapDur s t)) := rfl
      by_cases hm : m < overlapDur s t
      · have hstep : bestStep s (b, m) t = (t.speaker, overlapDur s t) := by
          simp [bestStep, hm]
        have hmo : max m (overlapDur s t) = overlapDur s t :=
          max_eq_right (le_of_lt hm)
        by_cases ho : overlapDur s t =
            (rest.map (overlapDur s)).foldl max (overlapDur s t)
        · -- the head already attains the running maximum: it is selected
          have hnone : findFirst (fun u => decide (overlapDur s t < overlapDur s u) &&
              (overlapDur s u ==
                (rest.map (overlapDur s)).foldl max (overlapDur s t))) rest =
              none := by
            apply findFirst_eq_none
            intro u hu
            have hle : overlapDur s u ≤
                (rest.map (overlapDur s)).foldl max (overlapDur s t) :=
              mem_le_foldl_max _ _ _ (List.mem_map_of_mem (overlapDur s) hu)
            rw [← ho] at hle
            simp [not_lt.mpr hle]
          have hhead : (decide (m < overlapDur s t) &&
              (overlapDur s t ==
                ((t :: rest).map (overlapDur s)).foldl max m)) = true := by
            rw [hmap, hmo]
            simp [hm, ← ho]
          rw [hfold, hstep, ih t.speaker (overlapDur s t)]
          simp only [findFirst, hhead, if_pos, hnone]
          rfl
        · -- the maximum lies strictly later: recurse with head as carrier
          have hlt : overlapDur s t <
              (rest.map (overlapDur s)).foldl max (overlapDur s t) :=
            lt_of_le_of_ne (le_foldl_max _ _) ho
          have hpredeq : ∀ u ∈ rest,
              ((fun u => decide (overlapDur s t < overlapDur s u) &&
                (overlapDur s u ==
                  (rest.map (overlapDur s)).foldl max (overlapDur s t))) u) =
              ((fun u => decide (m < overlapDur s u) &&
                (overlapDur s u ==
                  (rest.map (overlapDur s)).foldl max (overlapDur s t))) u) := by
            intro u hu
            by_cases he : overlapDur s u =
                (rest.map (overlapDur s)).foldl max (overlapDur s t)
            · have h1 : overlapDur s t < overlapDur s u := he ▸ hlt
              have h2 : m < overlapDur s u := lt_trans hm h1
              simp [h1, h2]
            · simp [beq_eq_false_iff_ne.mpr he]
          have hhead : (decide (m < overlapDur s t) &&
              (overlapDur s t ==
                ((t :: rest).map (overlapDur s)).foldl max m)) = false := by
            rw [hmap, hmo]
            simp [beq_eq_false_iff_ne.mpr ho]
          have hmem : (rest.map (overlapDur s)).foldl max (overlapDur s t) ∈
              rest.map (overlapDur s) := by
            rcases foldl_max_attained (rest.map (overlapDur s)) (overlapDur s t)
              with h | h
            · exact absurd h.symm ho
            · exact h
          obtain ⟨u, hu, hou⟩ := List.mem_map.mp hmem
          have hex : ∃ x ∈ rest, ((fun u => decide (m < overlapDur s u) &&
              (overlapDur s u ==
                (rest.map (overlapDur s)).foldl max (overlapDur s t))) x) = true := by
            refine ⟨u, hu, ?_⟩
            simp [hou, lt_trans hm hlt]
          obtain ⟨y, hy⟩ := findFirst_isSome _ rest hex
          rw [hfold, hstep, ih t.speaker (overlapDur s t)]
          simp only [findFirst, hhead, Bool.false_eq_true, if_false]
          rw [hmap, hmo]
          rw [findFirst_ext _ _ rest hpredeq, hy]
          rfl
      · have hstep : bestStep s (b, m) t = (b, m) := by
          simp [bestStep, hm]
        have hmo : max m (overlapDur s t) = m :=
          max_eq_left (not_lt.mp hm)
        have hhead : (decide (m < overlapDur s t) &&
            (overlapDur s t ==
              ((t :: rest).map (overlapDur s)).foldl max m)) = false := by
          simp [hm]
        rw [hfold, hstep, ih b m]
        simp only [findFirst, hhead, Bool.false_eq_true, if_false]
        rw [hmap, hmo]

theorem bestSpeaker_eq_spec (s : TSeg) (turns : List DSeg) :
    bestSpeaker s turns = specSpeaker s turns := by
  have h := foldBest_eq s turns "Unknown".data 0
  unfold bestSpeaker at h
  unfold bestSpeaker specSpeaker maxOverlap
  by_cases hM : 0 < (turns.map (overlapDur s)).foldl max 0
  · rw [if_pos hM, h]
    congr 1
    apply findFirst_ext
    intro u hu
    by_cases he : overlapDur s u = (turns.map (overlapDur s)).foldl max 0
    · have h1 : (0 : ℚ) < overlapDur s u := he ▸ hM
      simp [h1]
    · simp [beq_eq_false_iff_ne.mpr he]
  · rw [if_neg hM, h]
    have hnone : findFirst (fun u => decide ((0 : ℚ) < overlapDur s u) &&
        (overlapDur s u == (turns.map (overlapDur s)).foldl max 0)) turns =
        none := by
      apply findFirst_eq_none
      intro u hu
      have hle : overlapDur s u ≤ (turns.map (overlapDur s)).foldl max 0 :=
        mem_le_foldl_max _ _ _ (List.mem_map_of_mem (overlapDur s) hu)
      have hle0 : overlapDur s u ≤ 0 := hle.trans (not_lt.mp hM)
      simp [not_lt.mpr hle0]
    rw [hnone]
    rfl

theorem find?_cons_eq {α : Type} (p : α → Bool) (a : α) (l : List α) :
    List.find? p (a :: l) = if p a then some a else List.find? p l := by
  by_cases h : p a = true
  · rw [List.find?_cons_of_pos l h, if_pos h]
  · rw [List.find?_cons_of_neg l h, if_neg h]

theorem backendPick_nil (st en : ℚ) :
    backendPickSpeaker st en [] = "Unknown".data := rfl

theorem backendPick_cons (st en : ℚ) (t : SpTurn) (rest : List SpTurn) :
    backendPickSpeaker st en (t :: rest) =
      if (t.start ≤ st ∧ st ≤ t.stop) ∨ (t.start ≤ en ∧ en ≤ t.stop) then
        t.speaker
      else backendPickSpeaker st en rest := by
  unfold backendPickSpeaker
  rw [find?_cons_eq]
  by_cases hP : (t.start ≤ st ∧ st ≤ t.stop) ∨ (t.start ≤ en ∧ en ≤ t.stop)
  · have hb : ((t.start ≤ st && st ≤ t.stop) ||
        (t.start ≤ en && en ≤ t.stop)) = true := by
      simp only [Bool.or_eq_true, Bool.and_eq_true, decide_eq_true_eq]
      exact hP
    rw [hb, if_pos hP]
    simp
  · have hb : ((t.start ≤ st && st ≤ t.stop) ||
        (t.start ≤ en && en ≤ t.stop)) = false := by
      rw [Bool.eq_false_iff]
      intro hcon
      exact hP (by simpa [Bool.or_eq_true, Bool.and_eq_true,
        decide_eq_true_eq] using hcon)
    rw [hb, if_neg hP]
    simp

/-- Claim C1, counterexample: neither cited aligner satisfies the claim as
stated.  (i) The fallback aligner `assign_speakers_to_transcription` with an
empty diarization turn list — a list in which no turn has positive overlap —
does not assign "Unknown": the `diarization_result.get("segments")`
truthiness guard returns the segments unchanged with their prior speaker.
(ii) The backend aligner (src/backend/main.py lines 159-169) on segment
[0, 10] against turns [0, 1] and [1, 10] assigns the first
endpoint-containing turn's speaker although the second turn's overlap (9) is
strictly larger than the first's (1).  (iii) The same backend aligner even
assigns a turn whose overlap with the segment is zero when that turn merely
contains the segment's start instant. -/
theorem C1_counterexample :
    (assign_speakers_to_transcription
        [{ start := 0, stop := 1, text := "hi".data,
           speaker := "Speaker_B".data }] [] =
      [{ start := 0, stop := 1, text := "hi".data,
         speaker := "Speaker_B".data }] ∧
     "Speaker_B".data ≠ "Unknown".data) ∧
    (backendPickSpeaker 0 10
        [{ start := 0, stop := 1, speaker := "SPEAKER_00".data },
         { start := 1, stop := 10, speaker := "SPEAKER_01".data }] =
      "SPEAKER_00".data ∧
     overlapDur { start := 0, stop := 10, text := [], speaker := [] }
         { start := 1, stop := 10, dur := 9, speaker := "SPEAKER_01".data } >
       overlapDur { start := 0, stop := 10, text := [], speaker := [] }
         { start := 0, stop := 1, dur := 1, speaker := "SPEAKER_00".data } ∧
     "SPEAKER_00".data ≠ "SPEAKER_01".data) ∧
    (backendPickSpeaker 2 3
        [{ start := 0, stop := 2, speaker := "SPEAKER_00".data }] =
      "SPEAKER_00".data ∧
     overlapDur { start := 2, stop := 3, text := [], speaker := [] }
         { start := 0, stop := 2, dur := 2, speaker := "SPEAKER_00".data } = 0 ∧
     "SPEAKER_00".data ≠ "Unknown".data) := by
  refine ⟨⟨rfl, by decide⟩, ⟨?_, ?_, by decide⟩, ⟨?_, ?_, by decide⟩⟩
  · rw [backendPick_cons, if_pos (Or.inl ⟨by norm_num, by norm_num⟩)]
  · norm_num [overlapDur, min_def, max_def]
  · rw [backendPick_cons, if_pos (Or.inl ⟨by norm_num, by norm_num⟩)]
  · norm_num [overlapDur, min_def, max_def]

/-- Claim C1, amended: the two cited aligners behave differently.  The
fallback aligner `assign_speakers_to_transcription` assigns, for every
nonempty turn list, each transcript segment the speaker of the first turn
attaining the maximal overlap
`max(0, min(seg.end, turn.end) - max(seg.start, turn.start))` when that
maximum is positive, and "Unknown" when no turn has positive overlap; for an
empty turn list the segments are returned unchanged, keeping their prior
speaker field (which is "Unknown" for segments fresh from the transcriber).
The backend aligner instead scans the turns in order and assigns the speaker
of the first turn whose time range contains the segment's start or its end
instant — irrespective of overlap magnitude, even a zero overlap — and
"Unknown" when no turn contains either endpoint. -/
theorem C1_aligner_amended :
    (∀ (segs : List TSeg) (turns : List DSeg),
      assign_speakers_to_transcription segs turns =
        if turns.isEmpty then segs
        else segs.map (fun s => { s with speaker := specSpeaker s turns })) ∧
    (∀ st en : ℚ, backendPickSpeaker st en [] = "Unknown".data) ∧
    (∀ (st en : ℚ) (t : SpTurn) (rest : List SpTurn),
      backendPickSpeaker st en (t :: rest) =
        if (t.start ≤ st ∧ st ≤ t.stop) ∨ (t.start ≤ en ∧ en ≤ t.stop) then
          t.speaker
        else backendPickSpeaker st en rest) := by
  refine ⟨?_, backendPick_nil, backendPick_cons⟩
  intro segs turns
  unfold assign_speakers_to_transcription
  by_cases h : turns.isEmpty
  · simp [h]
  · simp [h, bestSpeaker_eq_spec]

/-- Claim C10: every segment of a returned transcription result has
non-empty text — a segment whose stripped text is empty, or contains a
hallucination phrase while being at most 5 characters longer than it, is
dropped (stated as the exact filter); the whole text is blanked under the
same phrase condition; an engine exception yields the empty result; and the
backend handler's segment loop likewise returns only non-empty texts. -/
theorem C10_nonempty_segments (r : RawResult) (lang : List Char)
    (segs : List RawSeg) (speakers : List SpTurn) :
    ((transcribe_sync (Except.ok r) lang).segments.all
        (fun s => !s.text.isEmpty)) = true ∧
    (transcribe_sync (Except.ok r) lang).text =
      (if isHallucinated (trimChars r.text) then [] else trimChars r.text) ∧
    (transcribe_sync (Except.ok r) lang).segments =
      r.segments.filterMap (fun s =>
        if trimChars s.text = [] ∨ isHallucinated (trimChars s.text) = true then
          none
        else some { start := s.start, stop := s.stop, text := trimChars s.text,
                    speaker := "Unknown".data }) ∧
    transcribe_sync (Except.error ()) lang =
      { text := [], segments := [], language := lang } ∧
    ((backendProcessSegments segs speakers).all (fun s => !s.text.isEmpty)) =
      true := by
  refine ⟨?_, rfl, ?_, rfl, ?_⟩
  · rw [List.all_eq_true]
    intro s hs
    have hs' : s ∈ filterSegments r.segments := hs
    obtain ⟨a, ha, hfa⟩ := List.mem_filterMap.mp hs'
    simp only at hfa
    by_cases h1 : isHallucinated (trimChars a.text) = true
    · rw [if_pos h1] at hfa
      exact absurd hfa (by simp)
    · rw [if_neg h1] at hfa
      by_cases h2 : (trimChars a.text).isEmpty = true
      · rw [if_pos h2] at hfa
        exact absurd hfa (by simp)
      · rw [if_neg h2] at hfa
        have hrec := Option.some.inj hfa
        rw [← hrec]
        have h2f : (trimChars a.text).isEmpty = false := by
          revert h2
          cases (trimChars a.text).isEmpty <;> simp
        simp [h2f]
  · show filterSegments r.segments = _
    unfold filterSegments
    refine congrArg (fun f => List.filterMap f r.segments) (funext fun a => ?_)
    simp only
    by_cases h1 : isHallucinated (trimChars a.text) = true
    · simp [h1]
    · by_cases h2 : trimChars a.text = []
      · simp [h1, h2]
      · simp [h1, h2]
  · rw [List.all_eq_true]
    intro s hs
    obtain ⟨a, ha, hfa⟩ := List.mem_filterMap.mp hs
    simp only at hfa
    by_cases hh : isHallucinated (trimChars a.text) = true
    · rw [if_pos hh] at hfa
      simp at hfa
    · rw [if_neg hh] at hfa
      by_cases he : (trimChars a.text).isEmpty = true
      · rw [if_pos he] at hfa
        exact absurd hfa (by simp)
      · rw [if_neg he] at hfa
        have hrec := Option.some.inj hfa
        rw [← hrec]
        have h2f : (trimChars a.text).isEmpty = false := by
          revert he
          cases (trimChars a.text).isEmpty <;> simp
        simp [h2f]

end WhisperExample
